import Mathlib

/-!
Shallow embedding of the guess-evaluation core of the `wordle` repository
(`src/rules.rs`), together with theorems settling the specification claims.

Rust `String`/`str` values are embedded as Lean `String`; Rust's
`String::len` is the UTF-8 byte length, embedded as `String.utf8ByteSize`.
The `HashMap<char, HashSet<u8>>` letter index is embedded as a function
`Char → Option (Finset Nat)` (the map is only ever observed through `get`,
and a `HashSet` is observationally a finite set).  The `u8` cast
`ind as u8` is embedded as `ind % 256`.  The `panic!` in `Word::analyze`
is embedded as an `Except.error` carrying a `Failure.panicked` value with
the formatted panic message: a panic aborts the process, in contrast to
the recoverable `Failure.invalidWordLength` value that the specification's
error taxonomy describes (and that the source never produces).
-/

namespace Wordle

/-- Per-letter feedback, from `enum MatchResult` in `src/rules.rs`. -/
inductive MatchResult
  | MATCH
  | EXISTS
  | NONE
  deriving DecidableEq, BEq, Repr

/-- `struct GuessResult { result: Vec<MatchResult> }` from `src/rules.rs`. -/
structure GuessResult where
  result : List MatchResult
  deriving DecidableEq, Repr

/-- `struct Word { val: String, letters: HashMap<char, HashSet<u8>> }`
from `src/rules.rs`.  The hash map is embedded by its lookup function. -/
structure Word where
  val : String
  letters : Char → Option (Finset Nat)

/-- How `Word::analyze` can fail.  `panicked` embeds the source's
`panic!` (a process-aborting crash) with its formatted message.
`invalidWordLength` is the recoverable typed error of the specification's
error taxonomy (§7); the source code never produces it. -/
inductive Failure
  | panicked (msg : String)
  | invalidWordLength (actual : Nat)
  deriving DecidableEq, Repr

/-- One iteration of the index-building loop in `Word::analyze`
(`src/rules.rs` lines 26-37): insert position `ind as u8` into the set
of `ch`, creating the set if the key is absent. -/
def insertIndex (mm : Char → Option (Finset Nat)) (ch : Char) (ind : Nat) :
    Char → Option (Finset Nat) :=
  fun c =>
    if c = ch then
      match mm ch with
      | some hset => some (insert (ind % 256) hset)
      | none => some ({ind % 256} : Finset Nat)
    else mm c

/-- The letter index built by `Word::analyze`: fold the insertion loop
over `word.chars().enumerate()`. -/
def lettersMap (word : String) : Char → Option (Finset Nat) :=
  word.data.enum.foldl (fun mm p => insertIndex mm p.2 p.1) (fun _ => none)

/-- `Word::analyze` from `src/rules.rs` lines 20-44.  The length check is
on `word.len()`, the UTF-8 byte length; on violation the source panics
with the message below. -/
def Word.analyze (word : String) : Except Failure Word :=
  if word.utf8ByteSize ≠ 5 then
    Except.error
      (Failure.panicked ("Secret word must be exactly 5 chars long, got " ++ word))
  else
    Except.ok { val := word, letters := lettersMap word }

/-- `Word::analyze_str` from `src/rules.rs` lines 16-18. -/
def Word.analyze_str (word : String) : Except Failure Word :=
  Word.analyze word

/-- `GuessResult::new_all_green` from `src/rules.rs` lines 116-124. -/
def GuessResult.new_all_green : GuessResult :=
  { result := List.replicate 5 MatchResult.MATCH }

/-- `GuessResult::new_empty` from `src/rules.rs` lines 126-128. -/
def GuessResult.new_empty : GuessResult :=
  { result := [] }

/-- `GuessResult::push` from `src/rules.rs` lines 130-132. -/
def GuessResult.push (self : GuessResult) (r : MatchResult) : GuessResult :=
  { result := self.result ++ [r] }

/-- The per-position score of one guess character, from the loop body of
`Word::try_match` (`src/rules.rs` lines 53-66):
`letters.get(&char).map(|hset| hset.contains(&(ind as u8)))` mapped to
`MATCH`/`EXISTS`, with `unwrap_or(NONE)`. -/
def scoreChar (self : Word) (ind : Nat) (c : Char) : MatchResult :=
  match self.letters c with
  | some hset => if ind % 256 ∈ hset then MatchResult.MATCH else MatchResult.EXISTS
  | none => MatchResult.NONE

/-- The general per-position scan of `Word::try_match`
(`src/rules.rs` lines 51-68), without the equality fast path: push one
`MatchResult` per character of `word.chars().enumerate()`. -/
def Word.try_match_scan (self : Word) (word : String) : GuessResult :=
  word.data.enum.foldl
    (fun guess p => guess.push (scoreChar self p.1 p.2))
    GuessResult.new_empty

/-- `Word::try_match` from `src/rules.rs` lines 46-69: if the guess equals
the secret string, return `new_all_green`; otherwise run the general scan. -/
def Word.try_match (self : Word) (word : String) : GuessResult :=
  if self.val = word then
    GuessResult.new_all_green
  else
    self.try_match_scan word

/-- `Word::reveal` from `src/rules.rs` lines 71-73. -/
def Word.reveal (self : Word) : String :=
  self.val

/-- `GuessResult::full_match` from `src/rules.rs` lines 84-88. -/
def GuessResult.full_match (self : GuessResult) : Bool :=
  self.result.all (fun item => item == MatchResult.MATCH)

/-- The set stored under a key of the letter index, with absent keys read
as the empty set (used to state the index invariant). -/
def getSet (o : Option (Finset Nat)) : Finset Nat :=
  o.getD ∅

/-! ### Helper lemmas about the embedding -/

lemma length_le_utf8ByteSize (s : String) : s.data.length ≤ s.utf8ByteSize := by
  show s.data.length ≤ String.utf8ByteSize.go s.data
  induction s.data with
  | nil => simp [String.utf8ByteSize.go]
  | cons c cs ih =>
    simp only [String.utf8ByteSize.go, List.length_cons]
    have := Char.utf8Size_pos c
    omega

lemma getSet_insertIndex (mm : Char → Option (Finset Nat)) (ch : Char) (ind : Nat)
    (c : Char) :
    getSet (insertIndex mm ch ind c) =
      if c = ch then insert (ind % 256) (getSet (mm ch)) else getSet (mm c) := by
  unfold insertIndex
  by_cases h : c = ch
  · simp only [h, if_pos rfl]
    cases mm ch <;> simp [getSet]
  · simp [h]

lemma insertIndex_eq_none (mm : Char → Option (Finset Nat)) (ch : Char) (ind : Nat)
    (c : Char) :
    insertIndex mm ch ind c = none ↔ c ≠ ch ∧ mm c = none := by
  unfold insertIndex
  by_cases h : c = ch
  · simp only [h, if_pos rfl]
    cases mm ch <;> simp
  · simp [h]

lemma foldl_insertIndex_eq_none (l : List (Nat × Char))
    (mm : Char → Option (Finset Nat)) (c : Char) :
    (l.foldl (fun m p => insertIndex m p.2 p.1) mm) c = none ↔
      mm c = none ∧ ∀ p ∈ l, p.2 ≠ c := by
  induction l generalizing mm with
  | nil => simp
  | cons p l ih =>
    rw [List.foldl_cons, ih, insertIndex_eq_none]
    constructor
    · rintro ⟨⟨h1, h2⟩, h3⟩
      refine ⟨h2, fun q hq => ?_⟩
      rcases List.mem_cons.mp hq with rfl | hq
      · exact fun e => h1 e.symm
      · exact h3 q hq
    · rintro ⟨h1, h2⟩
      refine ⟨⟨fun e => h2 p (List.mem_cons_self p l) e.symm, h1⟩, fun q hq => ?_⟩
      exact h2 q (List.mem_cons_of_mem p hq)

lemma mem_getSet_foldl_insertIndex (l : List (Nat × Char))
    (mm : Char → Option (Finset Nat)) (c : Char) (j : Nat) :
    j ∈ getSet ((l.foldl (fun m p => insertIndex m p.2 p.1) mm) c) ↔
      j ∈ getSet (mm c) ∨ ∃ p ∈ l, p.2 = c ∧ p.1 % 256 = j := by
  induction l generalizing mm with
  | nil => simp
  | cons p l ih =>
    rw [List.foldl_cons, ih]
    rw [getSet_insertIndex]
    by_cases h : c = p.2
    · subst h
      rw [if_pos rfl]
      simp only [Finset.mem_insert, List.mem_cons]
      constructor
      · rintro (⟨rfl | hj⟩ | ⟨q, hq, hqc, hqj⟩)
        · exact Or.inr ⟨p, Or.inl rfl, rfl, rfl⟩
        · exact Or.inl hj
        · exact Or.inr ⟨q, Or.inr hq, hqc, hqj⟩
      · rintro (hj | ⟨q, (rfl | hq), hqc, hqj⟩)
        · exact Or.inl (Or.inr hj)
        · exact Or.inl (Or.inl hqj.symm)
        · exact Or.inr ⟨q, hq, hqc, hqj⟩
    · simp only [if_neg h, List.mem_cons]
      constructor
      · rintro (hj | ⟨q, hq, hqc, hqj⟩)
        · exact Or.inl hj
        · exact Or.inr ⟨q, Or.inr hq, hqc, hqj⟩
      · rintro (hj | ⟨q, (rfl | hq), hqc, hqj⟩)
        · exact Or.inl hj
        · exact absurd hqc.symm h
        · exact Or.inr ⟨q, hq, hqc, hqj⟩

lemma lettersMap_eq_none (s : String) (c : Char) :
    lettersMap s c = none ↔ c ∉ s.data := by
  unfold lettersMap
  rw [foldl_insertIndex_eq_none]
  simp only [true_and]
  constructor
  · rintro h hc
    rcases List.mem_iff_get?.mp hc with ⟨i, hi⟩
    exact h (i, c) (List.mem_enum_iff_get?.mpr hi) rfl
  · rintro h p hp rfl
    exact h (List.mem_iff_get?.mpr ⟨p.1, List.mem_enum_iff_get?.mp hp⟩)

lemma mem_getSet_lettersMap (s : String) (c : Char) (j : Nat) :
    j ∈ getSet (lettersMap s c) ↔ ∃ i, s.data.get? i = some c ∧ i % 256 = j := by
  unfold lettersMap
  rw [mem_getSet_foldl_insertIndex]
  simp only [getSet, Option.getD_none, Finset.not_mem_empty, false_or]
  constructor
  · rintro ⟨p, hp, rfl, hj⟩
    exact ⟨p.1, List.mem_enum_iff_get?.mp hp, hj⟩
  · rintro ⟨i, hi, hj⟩
    exact ⟨(i, c), List.mem_enum_iff_get?.mpr hi, rfl, hj⟩

lemma lettersMap_isSome_iff (s : String) (c : Char) :
    (lettersMap s c).isSome = true ↔ c ∈ s.data := by
  rw [Option.isSome_iff_ne_none, Ne, lettersMap_eq_none, not_not]

lemma try_match_scan_result (w : Word) (word : String) :
    (w.try_match_scan word).result =
      word.data.enum.map (fun p => scoreChar w p.1 p.2) := by
  unfold Word.try_match_scan
  have main : ∀ (l : List (Nat × Char)) (g : GuessResult),
      (l.foldl (fun guess p => guess.push (scoreChar w p.1 p.2)) g).result =
        g.result ++ l.map (fun p => scoreChar w p.1 p.2) := by
    intro l
    induction l with
    | nil => simp
    | cons p l ih =>
      intro g
      rw [List.foldl_cons, ih]
      simp [GuessResult.push]
  simp [main, GuessResult.new_empty]

lemma try_match_of_ne (w : Word) (g : String) (h : w.val ≠ g) :
    w.try_match g = w.try_match_scan g := by
  unfold Word.try_match
  exact if_neg h

lemma try_match_of_eq (w : Word) (g : String) (h : w.val = g) :
    w.try_match g = GuessResult.new_all_green := by
  unfold Word.try_match
  exact if_pos h

lemma try_match_scan_get? (w : Word) (word : String) (i : Nat) :
    (w.try_match_scan word).result.get? i =
      (word.data.get? i).map (fun c => scoreChar w i c) := by
  rw [try_match_scan_result, List.get?_map, List.get?_enum]
  cases word.data.get? i <;> rfl

lemma beq_MATCH_iff (r : MatchResult) :
    (r == MatchResult.MATCH) = true ↔ r = MatchResult.MATCH := by
  cases r <;> decide

lemma scoreChar_lettersMap (s : String) (i : Nat) (c : Char)
    (hi : i < 256) (hlen : s.data.length ≤ 256) :
    scoreChar ⟨s, lettersMap s⟩ i c =
      if s.data.get? i = some c then MatchResult.MATCH
      else if c ∈ s.data then MatchResult.EXISTS
      else MatchResult.NONE := by
  unfold scoreChar
  rw [show ({ val := s, letters := lettersMap s } : Word).letters = lettersMap s from rfl]
  cases hmap : lettersMap s c with
  | none =>
    have hc : c ∉ s.data := (lettersMap_eq_none s c).mp hmap
    have hg : s.data.get? i ≠ some c := fun h => hc (List.mem_iff_get?.mpr ⟨i, h⟩)
    change MatchResult.NONE = _
    rw [if_neg hg, if_neg hc]
  | some hset =>
    have hc : c ∈ s.data := by
      rw [← lettersMap_isSome_iff s c, hmap]
      rfl
    have hmem : (i % 256 ∈ hset) ↔ s.data.get? i = some c := by
      have h1 := mem_getSet_lettersMap s c (i % 256)
      rw [hmap] at h1
      simp only [getSet, Option.getD_some] at h1
      rw [h1]
      constructor
      · rintro ⟨j, hj, hjmod⟩
        have hjlt : j < s.data.length := by
          rcases List.get?_eq_some.mp hj with ⟨hlt, -⟩
          exact hlt
        have hjeq : j = i := by
          have hj2 : j % 256 = j := Nat.mod_eq_of_lt (lt_of_lt_of_le hjlt hlen)
          have hi2 : i % 256 = i := Nat.mod_eq_of_lt hi
          omega
        exact hjeq ▸ hj
      · intro h
        exact ⟨i, h, rfl⟩
    change (if i % 256 ∈ hset then MatchResult.MATCH else MatchResult.EXISTS) = _
    by_cases hg : s.data.get? i = some c
    · rw [if_pos (hmem.mpr hg), if_pos hg]
    · rw [if_neg (fun hm => hg (hmem.mp hm)), if_neg hg, if_pos hc]

lemma analyze_ok_iff (s : String) (w : Word) :
    Word.analyze s = Except.ok w ↔
      s.utf8ByteSize = 5 ∧ w = ⟨s, lettersMap s⟩ := by
  unfold Word.analyze
  by_cases h : s.utf8ByteSize = 5 <;> simp [h, eq_comm]

/-! ### Claim theorems -/

/-- Claim C1: for every constructed secret word and every guess `g` of
length `WORD_LENGTH` with `g` different from the secret text, `try_match`
returns one feedback slot per guess position, in guess order, where
position `i` with character `c = g[i]` is `MATCH` if `c` occurs in the
secret text at position `i`, else `EXISTS` if `c` occurs anywhere in the
secret text, else `NONE` — with no cap on repeated-letter `EXISTS` marks. -/
theorem C1_evaluate_per_position (s g : String) (w : Word)
    (hw : Word.analyze s = Except.ok w) (hg : g.data.length = 5) (hne : g ≠ s) :
    (w.try_match g).result.length = 5 ∧
    ∀ i c, g.data.get? i = some c →
      (w.try_match g).result.get? i =
        some (if s.data.get? i = some c then MatchResult.MATCH
              else if c ∈ s.data then MatchResult.EXISTS
              else MatchResult.NONE) := by
  obtain ⟨hsize, rfl⟩ := (analyze_ok_iff s w).mp hw
  have hcond : (⟨s, lettersMap s⟩ : Word).val ≠ g := Ne.symm hne
  rw [try_match_of_ne _ _ hcond]
  have hslen : s.data.length ≤ 256 := by
    have := length_le_utf8ByteSize s
    omega
  constructor
  · rw [try_match_scan_result]
    simp only [List.length_map, List.enum_length]
    exact hg
  · intro i c hi
    have hilt : i < 5 := by
      rcases List.get?_eq_some.mp hi with ⟨hlt, -⟩
      omega
    rw [try_match_scan_get?, hi, Option.map_some']
    rw [scoreChar_lettersMap s i c (by omega) hslen]

/-- Witness for C1 at secret `"bathe"`, guess `"braid"`. -/
theorem C1_evaluate_per_position_witness :
    Word.analyze "bathe" = Except.ok ⟨"bathe", lettersMap "bathe"⟩ ∧
    ("braid" : String).data.length = 5 ∧
    ("braid" : String) ≠ "bathe" ∧
    ((Word.try_match ⟨"bathe", lettersMap "bathe"⟩ "braid").result.length = 5 ∧
     ∀ i c, ("braid" : String).data.get? i = some c →
       (Word.try_match ⟨"bathe", lettersMap "bathe"⟩ "braid").result.get? i =
         some (if ("bathe" : String).data.get? i = some c then MatchResult.MATCH
               else if c ∈ ("bathe" : String).data then MatchResult.EXISTS
               else MatchResult.NONE)) :=
  ⟨rfl, by decide, by decide,
    C1_evaluate_per_position "bathe" "braid" ⟨"bathe", lettersMap "bathe"⟩
      rfl (by decide) (by decide)⟩

/-- Claim C2, as stated, is false on the code: `Word::analyze` panics on a
length violation instead of returning the recoverable typed
`InvalidWordLength` error.  At the concrete input `""` the result is the
panic value, not `Failure.invalidWordLength 0`. -/
theorem C2_counterexample :
    Word.analyze "" =
      Except.error (Failure.panicked "Secret word must be exactly 5 chars long, got ") ∧
    Word.analyze "" ≠ Except.error (Failure.invalidWordLength 0) := by
  constructor
  · rfl
  · intro h
    have h2 : Word.analyze "" =
        Except.error (Failure.panicked "Secret word must be exactly 5 chars long, got ") := rfl
    have h3 := Except.error.inj (h2.symm.trans h)
    exact Failure.noConfusion h3

/-- Claim C2 amended: for every string whose UTF-8 byte length is not 5
(in particular the empty string and strings of length 4 or 6), `analyze`
fails by panicking with the formatted message — a process-aborting crash,
not a recoverable typed error. -/
theorem C2_amended_panic (w : String) (h : w.utf8ByteSize ≠ 5) :
    Word.analyze w =
      Except.error
        (Failure.panicked ("Secret word must be exactly 5 chars long, got " ++ w)) := by
  unfold Word.analyze
  rw [if_pos h]

/-- Witness for the amended C2 at the empty string. -/
theorem C2_amended_panic_witness :
    ("" : String).utf8ByteSize ≠ 5 ∧
    Word.analyze "" =
      Except.error
        (Failure.panicked ("Secret word must be exactly 5 chars long, got " ++ "")) :=
  ⟨by decide, C2_amended_panic "" (by decide)⟩

/-- Claim C3, as stated, is false on the code: for secret `"aaaaa"` and
guess `"aabaa"`, position 2 holds the character `'b'`, which does not
occur in `"aaaaa"` at all, so the code marks it `NONE` (Absent), not
`EXISTS` (Present). -/
theorem C3_counterexample :
    Word.analyze "aaaaa" = Except.ok ⟨"aaaaa", lettersMap "aaaaa"⟩ ∧
    (Word.try_match ⟨"aaaaa", lettersMap "aaaaa"⟩ "aabaa").result ≠
      [MatchResult.MATCH, MatchResult.MATCH, MatchResult.EXISTS,
       MatchResult.MATCH, MatchResult.MATCH] :=
  ⟨rfl, by decide⟩

/-- Claim C3 amended: for secret `"aaaaa"` and guess `"aabaa"`, the code
returns exactly `[Matched, Matched, Absent, Matched, Matched]`. -/
theorem C3_amended_scenario :
    Word.analyze "aaaaa" = Except.ok ⟨"aaaaa", lettersMap "aaaaa"⟩ ∧
    (Word.try_match ⟨"aaaaa", lettersMap "aaaaa"⟩ "aabaa").result =
      [MatchResult.MATCH, MatchResult.MATCH, MatchResult.NONE,
       MatchResult.MATCH, MatchResult.MATCH] :=
  ⟨rfl, by decide⟩

/-- Claim C4, as stated, is false on the code: for a secret whose UTF-8
byte length is 5 but whose character count is smaller the two paths
disagree.  At secret `"éabc"` (4 characters, 5 bytes) guessing the secret
itself takes the fast path and yields 5 `MATCH` slots, while the general
per-position scan yields only 4. -/
theorem C4_counterexample :
    Word.analyze "éabc" = Except.ok ⟨"éabc", lettersMap "éabc"⟩ ∧
    (Word.try_match ⟨"éabc", lettersMap "éabc"⟩ "éabc").result =
      List.replicate 5 MatchResult.MATCH ∧
    (Word.try_match_scan ⟨"éabc", lettersMap "éabc"⟩ "éabc").result =
      List.replicate 4 MatchResult.MATCH ∧
    Word.try_match ⟨"éabc", lettersMap "éabc"⟩ "éabc" ≠
      Word.try_match_scan ⟨"éabc", lettersMap "éabc"⟩ "éabc" :=
  ⟨rfl, by decide, by decide, by decide⟩

/-- Claim C4 amended: for every constructed secret word whose text has
exactly 5 characters, guessing the secret text itself returns 5 `MATCH`
slots via the fast path, `full_match` is true, and the fast path output is
identical to the general per-position scan's output. -/
theorem C4_fast_path (s : String) (w : Word) (hw : Word.analyze s = Except.ok w)
    (hchars : s.data.length = 5) :
    (w.try_match s).result = List.replicate 5 MatchResult.MATCH ∧
    (w.try_match s).full_match = true ∧
    w.try_match s = w.try_match_scan s := by
  obtain ⟨hsize, rfl⟩ := (analyze_ok_iff s w).mp hw
  have hfast : (⟨s, lettersMap s⟩ : Word).try_match s = GuessResult.new_all_green :=
    try_match_of_eq _ _ rfl
  have hscan : (Word.try_match_scan ⟨s, lettersMap s⟩ s).result =
      List.replicate 5 MatchResult.MATCH := by
    rw [try_match_scan_result]
    have hmap : ∀ p ∈ s.data.enum,
        scoreChar ⟨s, lettersMap s⟩ p.1 p.2 = MatchResult.MATCH := by
      intro p hp
      have hget : s.data.get? p.1 = some p.2 := List.mem_enum_iff_get?.mp hp
      have hlt : p.1 < s.data.length := by
        rcases List.get?_eq_some.mp hget with ⟨hlt, -⟩
        exact hlt
      rw [scoreChar_lettersMap s p.1 p.2 (by omega) (by omega), if_pos hget]
    rw [List.map_congr_left hmap, List.map_const', List.enum_length, hchars]
  refine ⟨?_, ?_, ?_⟩
  · rw [hfast]
    rfl
  · rw [hfast]
    rfl
  · rw [hfast]
    have heta : (⟨(Word.try_match_scan ⟨s, lettersMap s⟩ s).result⟩ : GuessResult) =
        (⟨List.replicate 5 MatchResult.MATCH⟩ : GuessResult) := by rw [hscan]
    exact heta.symm

/-- Witness for the amended C4 at secret `"cigar"`. -/
theorem C4_fast_path_witness :
    Word.analyze "cigar" = Except.ok ⟨"cigar", lettersMap "cigar"⟩ ∧
    ("cigar" : String).data.length = 5 ∧
    ((Word.try_match ⟨"cigar", lettersMap "cigar"⟩ "cigar").result =
       List.replicate 5 MatchResult.MATCH ∧
     (Word.try_match ⟨"cigar", lettersMap "cigar"⟩ "cigar").full_match = true ∧
     Word.try_match ⟨"cigar", lettersMap "cigar"⟩ "cigar" =
       Word.try_match_scan ⟨"cigar", lettersMap "cigar"⟩ "cigar") :=
  ⟨rfl, by decide,
    C4_fast_path "cigar" ⟨"cigar", lettersMap "cigar"⟩ rfl (by decide)⟩

/-- Claim C5, as stated, is false on the code: `"ééééé"` has exactly 5
characters but 10 UTF-8 bytes, and `analyze` rejects it. -/
theorem C5_counterexample :
    ("ééééé" : String).data.length = 5 ∧
    Word.analyze "ééééé" =
      Except.error
        (Failure.panicked "Secret word must be exactly 5 chars long, got ééééé") :=
  ⟨by decide, rfl⟩

/-- Claim C5 amended: for every string whose UTF-8 byte length is 5,
construction succeeds and `reveal` returns exactly the input string. -/
theorem C5_amended_construct_reveal (w : String) (h : w.utf8ByteSize = 5) :
    ∃ word : Word, Word.analyze w = Except.ok word ∧ word.reveal = w :=
  ⟨⟨w, lettersMap w⟩, (analyze_ok_iff w ⟨w, lettersMap w⟩).mpr ⟨h, rfl⟩, rfl⟩

/-- Witness for the amended C5 at `"cigar"`. -/
theorem C5_amended_construct_reveal_witness :
    ("cigar" : String).utf8ByteSize = 5 ∧
    ∃ word : Word, Word.analyze "cigar" = Except.ok word ∧ word.reveal = "cigar" :=
  ⟨by decide, C5_amended_construct_reveal "cigar" (by decide)⟩

/-- Claim C6: for every constructed secret word, the position index is
fully derived from the text: for every valid index `i`, the character at
`i` is a key whose set contains `i`, and no other character's set
contains `i`. -/
theorem C6_position_index_derived (s : String) (w : Word)
    (hw : Word.analyze s = Except.ok w) :
    ∀ i c, s.data.get? i = some c →
      i ∈ getSet (w.letters c) ∧
      ∀ c2 : Char, i ∈ getSet (w.letters c2) → c2 = c := by
  obtain ⟨hsize, rfl⟩ := (analyze_ok_iff s w).mp hw
  have hslen : s.data.length ≤ 256 := by
    have := length_le_utf8ByteSize s
    omega
  intro i c hi
  have hilt : i < s.data.length := by
    rcases List.get?_eq_some.mp hi with ⟨hlt, -⟩
    exact hlt
  have himod : i % 256 = i := Nat.mod_eq_of_lt (by omega)
  constructor
  · exact (mem_getSet_lettersMap s c i).mpr ⟨i, hi, himod⟩
  · intro c2 hc2
    have hc2m : i ∈ getSet (lettersMap s c2) := hc2
    rcases (mem_getSet_lettersMap s c2 i).mp hc2m with ⟨j, hj, hjmod⟩
    have hjlt : j < s.data.length := by
      rcases List.get?_eq_some.mp hj with ⟨hlt, -⟩
      exact hlt
    have hji : j = i := by
      have hjm : j % 256 = j := Nat.mod_eq_of_lt (by omega)
      omega
    subst hji
    exact Option.some.inj (hj.symm.trans hi)

/-- Witness for C6 at secret `"bathe"`, index 0, character `'b'`. -/
theorem C6_position_index_derived_witness :
    Word.analyze "bathe" = Except.ok ⟨"bathe", lettersMap "bathe"⟩ ∧
    ("bathe" : String).data.get? 0 = some 'b' ∧
    ((0 : Nat) ∈ getSet ((⟨"bathe", lettersMap "bathe"⟩ : Word).letters 'b') ∧
     ∀ c2 : Char, (0 : Nat) ∈ getSet ((⟨"bathe", lettersMap "bathe"⟩ : Word).letters c2) →
       c2 = 'b') :=
  ⟨rfl, by decide,
    C6_position_index_derived "bathe" ⟨"bathe", lettersMap "bathe"⟩ rfl 0 'b' (by decide)⟩

/-- Claim C7: `full_match` is true if and only if every slot of the
feedback sequence is `MATCH`. -/
theorem C7_full_match_iff (g : GuessResult) :
    g.full_match = true ↔ ∀ r ∈ g.result, r = MatchResult.MATCH := by
  unfold GuessResult.full_match
  rw [List.all_eq_true]
  constructor
  · intro h r hr
    exact (beq_MATCH_iff r).mp (h r hr)
  · intro h r hr
    exact (beq_MATCH_iff r).mpr (h r hr)

/-- Claim C8: construction validates the UTF-8 byte length against 5, not
the character count: construction succeeds exactly on byte length 5; the
5-character, 10-byte string `"ééééé"` is rejected while the 4-character,
5-byte string `"éabc"` is accepted. -/
theorem C8_byte_length_validation :
    (∀ w : String, (∃ word, Word.analyze w = Except.ok word) ↔ w.utf8ByteSize = 5) ∧
    ("ééééé" : String).data.length = 5 ∧
    (¬ ∃ word, Word.analyze "ééééé" = Except.ok word) ∧
    ("éabc" : String).utf8ByteSize = 5 ∧
    ("éabc" : String).data.length = 4 ∧
    (∃ word, Word.analyze "éabc" = Except.ok word) := by
  have main : ∀ w : String,
      (∃ word, Word.analyze w = Except.ok word) ↔ w.utf8ByteSize = 5 := by
    intro w
    constructor
    · rintro ⟨word, hword⟩
      exact ((analyze_ok_iff w word).mp hword).1
    · intro h
      exact ⟨⟨w, lettersMap w⟩, (analyze_ok_iff w ⟨w, lettersMap w⟩).mpr ⟨h, rfl⟩⟩
  refine ⟨main, by decide, ?_, by decide, by decide, ?_⟩
  · rw [main]
    decide
  · rw [main]
    decide

/-- Claim C9: `try_match` performs no length validation: for a guess
different from the secret text, the feedback has exactly one slot per
guess character, so shorter or longer guesses yield correspondingly
shorter or longer sequences rather than an error. -/
theorem C9_no_length_validation (s g : String) (w : Word)
    (hw : Word.analyze s = Except.ok w) (hne : g ≠ s) :
    (w.try_match g).result.length = g.data.length := by
  obtain ⟨hsize, rfl⟩ := (analyze_ok_iff s w).mp hw
  have hcond : (⟨s, lettersMap s⟩ : Word).val ≠ g := Ne.symm hne
  rw [try_match_of_ne _ _ hcond, try_match_scan_result]
  simp only [List.length_map, List.enum_length]

/-- Witness for C9 at secret `"cigar"` and the 7-character guess
`"abcdefg"`. -/
theorem C9_no_length_validation_witness :
    Word.analyze "cigar" = Except.ok ⟨"cigar", lettersMap "cigar"⟩ ∧
    ("abcdefg" : String) ≠ "cigar" ∧
    (Word.try_match ⟨"cigar", lettersMap "cigar"⟩ "abcdefg").result.length =
      ("abcdefg" : String).data.length :=
  ⟨rfl, by decide,
    C9_no_length_validation "cigar" "abcdefg" ⟨"cigar", lettersMap "cigar"⟩
      rfl (by decide)⟩

/-- Claim C10: for every constructed secret word (whose text is non-empty
since it has 5 bytes), evaluating the empty guess returns a feedback
sequence with zero slots on which `full_match` is true. -/
theorem C10_empty_guess_full_match (s : String) (w : Word)
    (hw : Word.analyze s = Except.ok w) :
    (w.try_match "").result = [] ∧ (w.try_match "").full_match = true := by
  obtain ⟨hsize, rfl⟩ := (analyze_ok_iff s w).mp hw
  have hcond : (⟨s, lettersMap s⟩ : Word).val ≠ "" := by
    intro h
    have h2 : s = "" := h
    rw [h2] at hsize
    exact absurd hsize (by decide)
  have hres : ((⟨s, lettersMap s⟩ : Word).try_match "").result = [] := by
    rw [try_match_of_ne _ _ hcond, try_match_scan_result]
    rfl
  refine ⟨hres, ?_⟩
  unfold GuessResult.full_match
  rw [hres]
  rfl

/-- Witness for C10 at secret `"cigar"`. -/
theorem C10_empty_guess_full_match_witness :
    Word.analyze "cigar" = Except.ok ⟨"cigar", lettersMap "cigar"⟩ ∧
    ((Word.try_match ⟨"cigar", lettersMap "cigar"⟩ "").result = [] ∧
     (Word.try_match ⟨"cigar", lettersMap "cigar"⟩ "").full_match = true) :=
  ⟨rfl, C10_empty_guess_full_match "cigar" ⟨"cigar", lettersMap "cigar"⟩ rfl⟩

end Wordle
